import Mathlib

/-!
Shallow embedding of `remongo` (src/repository.go): a generic repository
over a MongoDB-like driver, plus the filter normalizer `ToBson`.

Modelling conventions:
* Go `interface` values used as filters/pipelines are modelled by the
  inductive `GoValue`; `bson.D` documents by association lists `BsonD`.
* `bson.Marshal` followed by `bson.Unmarshal` into a `*bson.D` is modelled
  by `bsonMarshal` alone: the binary encoding of a document is in bijection
  with the document, so we let the encoding BE the document.
* The mongo driver is a parameter: a `Driver T` structure of response
  functions. Each repository method additionally returns the list of
  `DriverCall`s it made, in order, so that theorems can speak about what
  was delegated to the driver.
* Go slices are passed by value (a header sharing a backing array); `Find`
  models this explicitly with `GoSlice`.
-/

namespace Remongo

/-- Primitive BSON values (enough structure for the claims). -/
inductive BsonVal where
  | str (s : String)
  | int (n : Int)
  deriving DecidableEq, Repr

/-- `bson.D`: an ordered document, a list of key/value pairs. -/
abbrev BsonD := List (String × BsonVal)

/-- Go `interface` values that flow into the repository as
filters / update documents / aggregation pipelines. -/
inductive GoValue where
  /-- the untyped `nil` interface value -/
  | nil
  /-- a `*bson.D` pointer (the canonical ordered-document type) -/
  | ptrBsonD (d : BsonD)
  /-- a `bson.D` value (not a pointer) -/
  | bsonD (d : BsonD)
  /-- a Go map / struct with string keys, serializable to a document -/
  | mapVal (m : List (String × BsonVal))
  /-- a value that `bson.Marshal` cannot encode (e.g. a channel) -/
  | chanVal
  deriving DecidableEq, Repr

/-- Errors surfaced by the layer: serialization failures from
`bson.Marshal`/`bson.Unmarshal`, and opaque driver errors. -/
inductive GoError where
  | serialization
  | driver (n : Nat)
  deriving DecidableEq, Repr

/-- `bson.Marshal`: encode a Go value as a BSON document.
`nil` and unsupported values fail; maps/structs and documents encode to
their list of fields (the binary encoding is identified with the document). -/
def bsonMarshal : GoValue → Option BsonD
  | GoValue.nil => none
  | GoValue.ptrBsonD d => some d
  | GoValue.bsonD d => some d
  | GoValue.mapVal m => some m
  | GoValue.chanVal => none

/-- `bson.Unmarshal` of an encoded document into a fresh `*bson.D`
recovers the document (encoding is identified with the document). -/
def bsonUnmarshalD (data : BsonD) : BsonD := data

/-- `ToBson` (src/repository.go:204-217): identity fast path on `*bson.D`,
otherwise marshal and unmarshal back into a `*bson.D`.  The returned
`BsonD` stands for the `*bson.D` result. -/
def ToBson (v : GoValue) : Except GoError BsonD :=
  match v with
  | GoValue.ptrBsonD r => Except.ok r
  | v =>
    match bsonMarshal v with
    | none => Except.error GoError.serialization
    | some data => Except.ok (bsonUnmarshalD data)

/-- `true` exactly on the canonical ordered-document type `*bson.D`. -/
def isPtrBsonD : GoValue → Bool
  | GoValue.ptrBsonD _ => true
  | _ => false

/-- C6: For every input value that is already the canonical ordered-document
type (`*bson.D`), the filter normalizer `ToBson` returns that same value
unchanged and no error (identity law on the canonical form). -/
theorem toBson_canonical_identity (d : BsonD) :
    ToBson (GoValue.ptrBsonD d) = Except.ok d := rfl

/-- C7: For every serializable input on which normalization succeeds,
applying `ToBson` to its own successful output (a `*bson.D`, re-entering as
a `GoValue`) yields the same result as applying it once (idempotence). -/
theorem toBson_idempotent (v : GoValue) (d : BsonD)
    (h : ToBson v = Except.ok d) :
    ToBson (GoValue.ptrBsonD d) = ToBson v := by
  rw [h]
  rfl

/-- Witness for C7 at a concrete serializable map input. -/
theorem toBson_idempotent_witness :
    ToBson (GoValue.ptrBsonD [("a", BsonVal.int 1)])
      = ToBson (GoValue.mapVal [("a", BsonVal.int 1)]) :=
  toBson_idempotent (GoValue.mapVal [("a", BsonVal.int 1)])
    [("a", BsonVal.int 1)] rfl

/-- `IMongoModel` (src/repository.go:11-13): a model type exposing the
name of its backing collection. -/
class IMongoModel (T : Type) where
  Collection : T → String

/-- A `*mongo.Database` handle, identified by an opaque id. -/
structure Database where
  id : Nat
  deriving DecidableEq, Repr

/-- A `*mongo.Collection`: a database handle plus a collection name. -/
structure Collection where
  db : Database
  name : String
  deriving DecidableEq, Repr

/-- `MongoRepository` (src/repository.go:33-37): binds a model value and a
database handle. -/
structure MongoRepository (T : Type) where
  Model : T
  Database : Database
  deriving DecidableEq, Repr

/-- `GetDB` (src/repository.go:39-41). -/
def MongoRepository.GetDB {T : Type} (mr : MongoRepository T) :
    Remongo.Database :=
  mr.Database

/-- `GetCollection` (src/repository.go:43-45):
`mr.Database.Collection(mr.Model.Collection())`. -/
def MongoRepository.GetCollection {T : Type} [IMongoModel T]
    (mr : MongoRepository T) : Collection :=
  Collection.mk mr.Database (IMongoModel.Collection mr.Model)

/-- `InitRepository` (src/repository.go:197-202). -/
def InitRepository {T : Type} (database : Database) (model : T) :
    MongoRepository T :=
  MongoRepository.mk model database

/-- An option value (`options.FindOptions` etc.), left opaque. -/
abbrev Opt := Nat

/-- An inserted-document identifier, left opaque. -/
abbrev InsertedId := Nat

/-- A document handed to the driver's `InsertMany` as one element of the
`interface` slice: either a model value, or — as the repository actually
builds it — the `*[]T` pointer to the whole model slice. -/
inductive DriverDoc (T : Type) where
  | model (m : T)
  | modelSlicePtr (ms : List T)
  deriving DecidableEq, Repr

/-- Outcome of the driver's `FindOne`: a `SingleResult` holding a document,
the distinguished `mongo.ErrNoDocuments`, or another error. -/
inductive FindOneRes where
  | doc (d : BsonD)
  | errNoDocuments
  | err (e : GoError)
  deriving DecidableEq, Repr

/-- The mongo driver, as response functions for each call the repository
makes.  `decode` is the BSON decoding of a document into a model `T`. -/
structure Driver (T : Type) where
  findOne : Collection → BsonD → List Opt → FindOneRes
  find : Collection → BsonD → List Opt → Except GoError (List BsonD)
  aggregate : Collection → GoValue → Except GoError (List BsonD)
  insertOne : Collection → T → List Opt → Except GoError InsertedId
  insertMany : Collection → List (DriverDoc T) → List Opt →
    Except GoError (List InsertedId)
  replaceOne : Collection → GoValue → T → List Opt → Except GoError Int
  updateOne : Collection → GoValue → GoValue → List Opt → Except GoError Int
  updateMany : Collection → GoValue → GoValue → List Opt → Except GoError Int
  deleteOne : Collection → GoValue → List Opt → Except GoError Int
  deleteMany : Collection → GoValue → List Opt → Except GoError Int
  decode : BsonD → Except GoError T

/-- A record of one call made by the repository into the driver, with the
arguments exactly as the repository passed them. -/
inductive DriverCall (T : Type) where
  | findOne (c : Collection) (filter : BsonD) (opts : List Opt)
  | find (c : Collection) (filter : BsonD) (opts : List Opt)
  | aggregate (c : Collection) (pipeline : GoValue)
  | insertOne (c : Collection) (doc : T) (opts : List Opt)
  | insertMany (c : Collection) (docs : List (DriverDoc T)) (opts : List Opt)
  | replaceOne (c : Collection) (filter : GoValue) (repl : T) (opts : List Opt)
  | updateOne (c : Collection) (filter : GoValue) (update : GoValue)
      (opts : List Opt)
  | updateMany (c : Collection) (filter : GoValue) (update : GoValue)
      (opts : List Opt)
  | deleteOne (c : Collection) (filter : GoValue) (opts : List Opt)
  | deleteMany (c : Collection) (filter : GoValue) (opts : List Opt)
  deriving DecidableEq, Repr

/-- The collection a driver call targets. -/
def DriverCall.coll {T : Type} : DriverCall T → Collection
  | DriverCall.findOne c _ _ => c
  | DriverCall.find c _ _ => c
  | DriverCall.aggregate c _ => c
  | DriverCall.insertOne c _ _ => c
  | DriverCall.insertMany c _ _ => c
  | DriverCall.replaceOne c _ _ _ => c
  | DriverCall.updateOne c _ _ _ => c
  | DriverCall.updateMany c _ _ _ => c
  | DriverCall.deleteOne c _ _ => c
  | DriverCall.deleteMany c _ _ => c

/-- A Go slice header: a window of length `len` at the start of a shared
backing array.  Go passes the header by value; the backing array is shared
between the caller's header and the copy. -/
structure GoSlice (α : Type) where
  backing : List α
  len : Nat
  deriving DecidableEq, Repr

/-- The elements the holder of a slice header sees. -/
def GoSlice.view {α : Type} (s : GoSlice α) : List α :=
  s.backing.take s.len

/-- Decode a list of documents into models: the successfully decoded
prefix, and the first decode error if any (as `cursor.All` does). -/
def decodeDocs {T : Type} (drv : Driver T) : List BsonD → List T × Option GoError
  | [] => ([], none)
  | d :: ds =>
    match drv.decode d with
    | Except.error e => ([], some e)
    | Except.ok t =>
      let r := decodeDocs drv ds
      (t :: r.1, r.2)

/-- The caller-visible backing array after `cursor.All` appends `rs` into a
re-sliced (length 0) copy of `dest`: appends land in the shared backing
while capacity lasts; the first append past capacity reallocates, after
which nothing more reaches the caller's array. -/
def cursorAllShared {α : Type} (dest : GoSlice α) (rs : List α) : List α :=
  if rs.length ≤ dest.backing.length then rs ++ dest.backing.drop rs.length
  else rs.take dest.backing.length

/-- Outcome of `Find`: either a returned error/backing pair, or a runtime
panic (dereference of the nil cursor returned by a failed driver find). -/
inductive FindOutcome (T : Type) where
  | panics
  | ret (err : Option GoError) (callerBacking : List T)
  deriving DecidableEq, Repr

/-- `FindOne` (src/repository.go:47-71).  `model` is the content of the
caller's `*T` slot; the returned `T` is its content after the call.  The
driver call passes no options, as in the source.  On `mongo.ErrNoDocuments`
the error is suppressed and nothing is decoded. -/
def MongoRepository.FindOne {T : Type} [IMongoModel T] (drv : Driver T)
    (mr : MongoRepository T) (model : T) (filter : GoValue)
    (_opts : List Opt) : List (DriverCall T) × (Option GoError × T) :=
  match ToBson filter with
  | Except.error e => ([], (some e, model))
  | Except.ok b =>
    let c := mr.GetCollection
    match drv.findOne c b [] with
    | FindOneRes.errNoDocuments => ([DriverCall.findOne c b []], (none, model))
    | FindOneRes.err e => ([DriverCall.findOne c b []], (some e, model))
    | FindOneRes.doc d =>
      match drv.decode d with
      | Except.error e => ([DriverCall.findOne c b []], (some e, model))
      | Except.ok t => ([DriverCall.findOne c b []], (none, t))

/-- `Find` (src/repository.go:73-98).  `models` is the caller's slice
header, received by value.  A non-nil `aggregate` is run and its result
discarded.  The error of the driver's find is overwritten by the
`cursor.All` call on the (then nil) cursor, which panics; on a live cursor
the decoded results are appended into a local re-slice of `models`, so only
the shared backing array is visible to the caller. -/
def MongoRepository.Find {T : Type} [IMongoModel T] (drv : Driver T)
    (mr : MongoRepository T) (models : GoSlice T) (filter : GoValue)
    (aggregate : GoValue) (opts : List Opt) :
    List (DriverCall T) × FindOutcome T :=
  match ToBson filter with
  | Except.error e => ([], FindOutcome.ret (some e) models.backing)
  | Except.ok b =>
    let c := mr.GetCollection
    let aggTrace : List (DriverCall T) :=
      if aggregate = GoValue.nil then [] else [DriverCall.aggregate c aggregate]
    match drv.find c b opts with
    | Except.error _ =>
      (aggTrace ++ [DriverCall.find c b opts], FindOutcome.panics)
    | Except.ok docs =>
      let dec := decodeDocs drv docs
      (aggTrace ++ [DriverCall.find c b opts],
        FindOutcome.ret dec.2 (cursorAllShared models dec.1))

/-- `InsertOne` (src/repository.go:100-112). -/
def MongoRepository.InsertOne {T : Type} [IMongoModel T] (drv : Driver T)
    (mr : MongoRepository T) (model : T) (opts : List Opt) :
    List (DriverCall T) × (Option GoError × Option InsertedId) :=
  let c := mr.GetCollection
  match drv.insertOne c model opts with
  | Except.error e => ([DriverCall.insertOne c model opts], (some e, none))
  | Except.ok i => ([DriverCall.insertOne c model opts], (none, some i))

/-- `InsertMany` (src/repository.go:114-126).  The source wraps the whole
`*[]T` pointer as the single element of the `interface` slice handed to the
driver: `InsertMany(ctx, wrapping the models pointer alone, opts...)`. -/
def MongoRepository.InsertMany {T : Type} [IMongoModel T] (drv : Driver T)
    (mr : MongoRepository T) (models : List T) (opts : List Opt) :
    List (DriverCall T) × (Option GoError × Option (List InsertedId)) :=
  let c := mr.GetCollection
  let docs : List (DriverDoc T) := [DriverDoc.modelSlicePtr models]
  match drv.insertMany c docs opts with
  | Except.error e => ([DriverCall.insertMany c docs opts], (some e, none))
  | Except.ok ids => ([DriverCall.insertMany c docs opts], (none, some ids))

/-- `ReplaceOne` (src/repository.go:128-140): the filter is passed to the
driver as received, without `ToBson`. -/
def MongoRepository.ReplaceOne {T : Type} [IMongoModel T] (drv : Driver T)
    (mr : MongoRepository T) (filter : GoValue) (model : T)
    (opts : List Opt) : List (DriverCall T) × (Option GoError × Int) :=
  let c := mr.GetCollection
  match drv.replaceOne c filter model opts with
  | Except.error e => ([DriverCall.replaceOne c filter model opts], (some e, 0))
  | Except.ok n => ([DriverCall.replaceOne c filter model opts], (none, n))

/-- `UpdateOne` (src/repository.go:142-155): raw filter, options
forwarded. -/
def MongoRepository.UpdateOne {T : Type} [IMongoModel T] (drv : Driver T)
    (mr : MongoRepository T) (filter : GoValue) (update : GoValue)
    (opts : List Opt) : List (DriverCall T) × (Option GoError × Int) :=
  let c := mr.GetCollection
  match drv.updateOne c filter update opts with
  | Except.error e =>
    ([DriverCall.updateOne c filter update opts], (some e, 0))
  | Except.ok n => ([DriverCall.updateOne c filter update opts], (none, n))

/-- `UpdateMany` (src/repository.go:157-169): raw filter, and the variadic
`opts` are NOT forwarded — the driver call receives no options. -/
def MongoRepository.UpdateMany {T : Type} [IMongoModel T] (drv : Driver T)
    (mr : MongoRepository T) (filter : GoValue) (update : GoValue)
    (_opts : List Opt) : List (DriverCall T) × (Option GoError × Int) :=
  let c := mr.GetCollection
  match drv.updateMany c filter update [] with
  | Except.error e => ([DriverCall.updateMany c filter update []], (some e, 0))
  | Except.ok n => ([DriverCall.updateMany c filter update []], (none, n))

/-- `DeleteOne` (src/repository.go:171-182): raw filter, options
forwarded. -/
def MongoRepository.DeleteOne {T : Type} [IMongoModel T] (drv : Driver T)
    (mr : MongoRepository T) (filter : GoValue) (opts : List Opt) :
    List (DriverCall T) × (Option GoError × Int) :=
  let c := mr.GetCollection
  match drv.deleteOne c filter opts with
  | Except.error e => ([DriverCall.deleteOne c filter opts], (some e, 0))
  | Except.ok n => ([DriverCall.deleteOne c filter opts], (none, n))

/-- `DeleteMany` (src/repository.go:184-195): raw filter, options
forwarded. -/
def MongoRepository.DeleteMany {T : Type} [IMongoModel T] (drv : Driver T)
    (mr : MongoRepository T) (filter : GoValue) (opts : List Opt) :
    List (DriverCall T) × (Option GoError × Int) :=
  let c := mr.GetCollection
  match drv.deleteMany c filter opts with
  | Except.error e => ([DriverCall.deleteMany c filter opts], (some e, 0))
  | Except.ok n => ([DriverCall.deleteMany c filter opts], (none, n))

/-- `drv` with its aggregate behaviour replaced (all other responses
unchanged). -/
def setAggregate {T : Type} (drv : Driver T)
    (a : Collection → GoValue → Except GoError (List BsonD)) : Driver T :=
  Driver.mk drv.findOne drv.find a drv.insertOne drv.insertMany
    drv.replaceOne drv.updateOne drv.updateMany drv.deleteOne
    drv.deleteMany drv.decode

/-- One repository method invocation, with its arguments. -/
inductive RepoOp (T : Type) where
  | findOne (dest : T) (filter : GoValue) (opts : List Opt)
  | find (models : GoSlice T) (filter : GoValue) (agg : GoValue)
      (opts : List Opt)
  | insertOne (m : T) (opts : List Opt)
  | insertMany (ms : List T) (opts : List Opt)
  | replaceOne (filter : GoValue) (m : T) (opts : List Opt)
  | updateOne (filter : GoValue) (update : GoValue) (opts : List Opt)
  | updateMany (filter : GoValue) (update : GoValue) (opts : List Opt)
  | deleteOne (filter : GoValue) (opts : List Opt)
  | deleteMany (filter : GoValue) (opts : List Opt)
  deriving DecidableEq, Repr

/-- The driver calls one repository method invocation makes. -/
def runOp {T : Type} [IMongoModel T] (drv : Driver T)
    (mr : MongoRepository T) : RepoOp T → List (DriverCall T)
  | RepoOp.findOne dest f o => (mr.FindOne drv dest f o).1
  | RepoOp.find ms f a o => (mr.Find drv ms f a o).1
  | RepoOp.insertOne m o => (mr.InsertOne drv m o).1
  | RepoOp.insertMany ms o => (mr.InsertMany drv ms o).1
  | RepoOp.replaceOne f m o => (mr.ReplaceOne drv f m o).1
  | RepoOp.updateOne f u o => (mr.UpdateOne drv f u o).1
  | RepoOp.updateMany f u o => (mr.UpdateMany drv f u o).1
  | RepoOp.deleteOne f o => (mr.DeleteOne drv f o).1
  | RepoOp.deleteMany f o => (mr.DeleteMany drv f o).1

/-- The driver calls a sequence of repository method invocations makes. -/
def runOps {T : Type} [IMongoModel T] (drv : Driver T)
    (mr : MongoRepository T) : List (RepoOp T) → List (DriverCall T)
  | [] => []
  | op :: ops => runOp drv mr op ++ runOps drv mr ops

/-- A concrete model type for witnesses, living in collection "tests". -/
structure TestModel where
  name : String
  deriving DecidableEq, Repr

instance : IMongoModel TestModel := IMongoModel.mk (fun _ => "tests")

def testDb : Database := Database.mk 0

def testRepo : MongoRepository TestModel :=
  InitRepository testDb (TestModel.mk "")

def testColl : Collection := Collection.mk testDb "tests"

/-- A concrete driver with mongo-like behaviour: `findOne` matches no
document; `find` returns one matching document; `insertMany` yields one
identifier per document it can encode and fails when handed a document
that is a slice (a slice is not a BSON document). -/
def mongoDriver : Driver TestModel where
  findOne _ _ _ := FindOneRes.errNoDocuments
  find _ _ _ := Except.ok [[("name", BsonVal.str "a")]]
  aggregate _ _ := Except.ok []
  insertOne _ _ _ := Except.ok 1
  insertMany _ docs _ :=
    if docs.all (fun d => match d with
        | DriverDoc.model _ => true
        | DriverDoc.modelSlicePtr _ => false) then
      Except.ok (List.range docs.length)
    else
      Except.error (GoError.driver 7)
  replaceOne _ _ _ _ := Except.ok 1
  updateOne _ _ _ _ := Except.ok 1
  updateMany _ _ _ _ := Except.ok 1
  deleteOne _ _ _ := Except.ok 1
  deleteMany _ _ _ := Except.ok 1
  decode _ := Except.ok (TestModel.mk "a")

/-- A driver whose `find` fails with a driver error. -/
def failFindDriver : Driver TestModel :=
  Driver.mk mongoDriver.findOne (fun _ _ _ => Except.error (GoError.driver 3))
    mongoDriver.aggregate mongoDriver.insertOne mongoDriver.insertMany
    mongoDriver.replaceOne mongoDriver.updateOne mongoDriver.updateMany
    mongoDriver.deleteOne mongoDriver.deleteMany mongoDriver.decode

/-- C1: claimed — for every slice of N valid models, InsertMany returns no
error and exactly N inserted identifiers.  What the code does instead: the
driver is always handed a single document — the wrapped pointer to the
whole model slice — so with a mongo-like driver a slice of 2 valid models
produces a driver error (a slice does not encode as a document), not 2
identifiers. -/
theorem insertMany_single_wrapped_doc :
    (∀ (drv : Driver TestModel) (mr : MongoRepository TestModel)
        (ms : List TestModel) (opts : List Opt),
      (mr.InsertMany drv ms opts).1
        = [DriverCall.insertMany mr.GetCollection
            [DriverDoc.modelSlicePtr ms] opts])
    ∧ (testRepo.InsertMany mongoDriver
        [TestModel.mk "a", TestModel.mk "b"] []).2
        = (some (GoError.driver 7), none) := by
  refine ⟨fun drv mr ms opts => ?_, rfl⟩
  rcases h : drv.insertMany mr.GetCollection [DriverDoc.modelSlicePtr ms] opts
    with e | ids <;> simp [MongoRepository.InsertMany, h]

/-- C5: a FindOne whose filter matches zero documents (the driver reports
`mongo.ErrNoDocuments`) returns no error and leaves the destination model
holding exactly its prior value. -/
theorem findOne_no_documents_unchanged {T : Type} [IMongoModel T]
    (drv : Driver T) (mr : MongoRepository T) (dest : T) (f : GoValue)
    (opts : List Opt) (b : BsonD)
    (hb : ToBson f = Except.ok b)
    (hnd : drv.findOne mr.GetCollection b [] = FindOneRes.errNoDocuments) :
    (mr.FindOne drv dest f opts).2 = (none, dest) := by
  unfold MongoRepository.FindOne
  rw [hb]
  dsimp only
  rw [hnd]

/-- Witness for C5 at a concrete repository, driver and prior value. -/
theorem findOne_no_documents_unchanged_witness :
    (testRepo.FindOne mongoDriver (TestModel.mk "prior")
        (GoValue.ptrBsonD [("name", BsonVal.str "z")]) []).2
      = (none, TestModel.mk "prior") :=
  findOne_no_documents_unchanged mongoDriver testRepo (TestModel.mk "prior")
    (GoValue.ptrBsonD [("name", BsonVal.str "z")]) []
    [("name", BsonVal.str "z")] rfl rfl

/-- C10: UpdateMany does not forward its variadic options to the driver, so
its result is identical for any two choices of options; UpdateOne, by
contrast, forwards its options in the driver call. -/
theorem updateMany_options_ignored {T : Type} [IMongoModel T]
    (drv : Driver T) (mr : MongoRepository T) (f u : GoValue)
    (o1 o2 opts : List Opt) :
    mr.UpdateMany drv f u o1 = mr.UpdateMany drv f u o2
    ∧ (mr.UpdateOne drv f u opts).1
        = [DriverCall.updateOne mr.GetCollection f u opts] := by
  refine ⟨rfl, ?_⟩
  rcases h : drv.updateOne mr.GetCollection f u opts
    with e | n <;> simp [MongoRepository.UpdateOne, h]

/-- C2: claimed — every operation other than FindOne returns driver errors
unchanged; in particular a failing driver find is returned verbatim.  What
the code does instead: `Find` overwrites the error of the failed driver
find with the result of calling `All` on the nil cursor, which panics, so
the driver error is never returned. -/
theorem find_driver_error_panics {T : Type} [IMongoModel T]
    (drv : Driver T) (mr : MongoRepository T) (models : GoSlice T)
    (f agg : GoValue) (opts : List Opt) (b : BsonD) (e : GoError)
    (hb : ToBson f = Except.ok b)
    (hf : drv.find mr.GetCollection b opts = Except.error e) :
    (mr.Find drv models f agg opts).2 = FindOutcome.panics := by
  unfold MongoRepository.Find
  rw [hb]
  dsimp only
  rw [hf]

/-- Witness for C2 at a concrete driver whose find fails. -/
theorem find_driver_error_panics_witness :
    (testRepo.Find failFindDriver (GoSlice.mk [] 0)
        (GoValue.ptrBsonD []) GoValue.nil []).2 = FindOutcome.panics :=
  find_driver_error_panics failFindDriver testRepo (GoSlice.mk [] 0)
    (GoValue.ptrBsonD []) GoValue.nil [] [] (GoError.driver 3) rfl rfl

/-- C3 counterexample: DeleteOne hands the driver the raw map filter, not
the canonical ordered document that `ToBson` (which would succeed here)
produces. -/
theorem deleteOne_raw_filter_cex :
    (testRepo.DeleteOne mongoDriver (GoValue.mapVal [("x", BsonVal.int 1)])
        []).1
      = [DriverCall.deleteOne testColl (GoValue.mapVal [("x", BsonVal.int 1)])
          []]
    ∧ ToBson (GoValue.mapVal [("x", BsonVal.int 1)])
        = Except.ok [("x", BsonVal.int 1)]
    ∧ isPtrBsonD (GoValue.mapVal [("x", BsonVal.int 1)]) = false := by
  exact ⟨rfl, rfl, rfl⟩

/-- C3 amended: only FindOne and Find normalize the filter through `ToBson`
before delegating; ReplaceOne, UpdateOne, UpdateMany, DeleteOne and
DeleteMany hand the filter to the driver exactly as received. -/
theorem filter_normalization_amended {T : Type} [IMongoModel T]
    (drv : Driver T) (mr : MongoRepository T) (dest : T) (m : T)
    (models : GoSlice T) (f u : GoValue) (opts : List Opt) (b : BsonD)
    (hb : ToBson f = Except.ok b) :
    (mr.FindOne drv dest f opts).1
        = [DriverCall.findOne mr.GetCollection b []]
    ∧ (mr.Find drv models f GoValue.nil opts).1
        = [DriverCall.find mr.GetCollection b opts]
    ∧ (mr.ReplaceOne drv f m opts).1
        = [DriverCall.replaceOne mr.GetCollection f m opts]
    ∧ (mr.UpdateOne drv f u opts).1
        = [DriverCall.updateOne mr.GetCollection f u opts]
    ∧ (mr.UpdateMany drv f u opts).1
        = [DriverCall.updateMany mr.GetCollection f u []]
    ∧ (mr.DeleteOne drv f opts).1
        = [DriverCall.deleteOne mr.GetCollection f opts]
    ∧ (mr.DeleteMany drv f opts).1
        = [DriverCall.deleteMany mr.GetCollection f opts] := by
  refine ⟨?_, ?_, ?_, ?_, ?_, ?_, ?_⟩
  · unfold MongoRepository.FindOne
    rw [hb]
    dsimp only
    rcases drv.findOne mr.GetCollection b [] with d | _ | e
    · dsimp only
      rcases drv.decode d with e | t <;> rfl
    · rfl
    · rfl
  · unfold MongoRepository.Find
    rw [hb]
    dsimp only
    rcases drv.find mr.GetCollection b opts with e | docs <;> simp
  · rcases h : drv.replaceOne mr.GetCollection f m opts
      with e | n <;> simp [MongoRepository.ReplaceOne, h]
  · rcases h : drv.updateOne mr.GetCollection f u opts
      with e | n <;> simp [MongoRepository.UpdateOne, h]
  · rcases h : drv.updateMany mr.GetCollection f u []
      with e | n <;> simp [MongoRepository.UpdateMany, h]
  · rcases h : drv.deleteOne mr.GetCollection f opts
      with e | n <;> simp [MongoRepository.DeleteOne, h]
  · rcases h : drv.deleteMany mr.GetCollection f opts
      with e | n <;> simp [MongoRepository.DeleteMany, h]

/-- Witness for the amended C3 at a concrete repository and filter. -/
theorem filter_normalization_amended_witness :
    (testRepo.FindOne mongoDriver (TestModel.mk "")
        (GoValue.mapVal [("x", BsonVal.int 1)]) []).1
      = [DriverCall.findOne testColl [("x", BsonVal.int 1)] []] :=
  (filter_normalization_amended mongoDriver testRepo (TestModel.mk "")
    (TestModel.mk "") (GoSlice.mk [] 0) (GoValue.mapVal [("x", BsonVal.int 1)])
    GoValue.nil [] [("x", BsonVal.int 1)] rfl).1

/-- C4: claimed — every successful Find populates the caller-supplied
destination slice with the matching documents.  What the code does instead:
the slice header is received by value and `cursor.All` writes to the local
copy, so with a nil destination slice a find matching one document
succeeds while the caller-visible backing array stays empty. -/
theorem find_empty_dest_unpopulated :
    mongoDriver.find testColl [] [] = Except.ok [[("name", BsonVal.str "a")]]
    ∧ (testRepo.Find mongoDriver (GoSlice.mk [] 0)
        (GoValue.ptrBsonD []) GoValue.nil []).2
        = FindOutcome.ret none []
    ∧ GoSlice.view (GoSlice.mk ([] : List TestModel) 0) = [] := by
  exact ⟨rfl, rfl, rfl⟩

/-- Decoding results does not depend on the driver's aggregate behaviour. -/
theorem decodeDocs_setAggregate {T : Type} (drv : Driver T)
    (a : Collection → GoValue → Except GoError (List BsonD))
    (ds : List BsonD) :
    decodeDocs (setAggregate drv a) ds = decodeDocs drv ds := by
  induction ds with
  | nil => rfl
  | cons d ds ih =>
    rcases h : drv.decode d with e | t
    · have h2 : (setAggregate drv a).decode d = Except.error e := h
      simp [decodeDocs, h, h2]
    · have h2 : (setAggregate drv a).decode d = Except.ok t := h
      simp [decodeDocs, h, h2, ih]

/-- C8: a Find with a non-nil pre-aggregation stage executes the
aggregation against the collection but discards its result: the trace is
the aggregate call followed by a plain find on the normalized original
filter, and the returned outcome is unchanged under any replacement of the
driver's aggregate behaviour. -/
theorem find_aggregate_executed_discarded {T : Type} [IMongoModel T]
    (drv : Driver T)
    (aggFn : Collection → GoValue → Except GoError (List BsonD))
    (mr : MongoRepository T) (models : GoSlice T) (f agg : GoValue)
    (opts : List Opt) (b : BsonD)
    (hagg : agg ≠ GoValue.nil) (hb : ToBson f = Except.ok b) :
    (mr.Find drv models f agg opts).1
      = [DriverCall.aggregate mr.GetCollection agg,
          DriverCall.find mr.GetCollection b opts]
    ∧ (mr.Find (setAggregate drv aggFn) models f agg opts).2
      = (mr.Find drv models f agg opts).2 := by
  constructor
  · unfold MongoRepository.Find
    rw [hb]
    dsimp only
    rw [if_neg hagg]
    rcases drv.find mr.GetCollection b opts with e | docs <;> simp
  · unfold MongoRepository.Find
    rw [hb]
    dsimp only
    rcases h : drv.find mr.GetCollection b opts with e | docs
    · have h2 : (setAggregate drv aggFn).find mr.GetCollection b opts
          = Except.error e := h
      rw [h2]
    · have h2 : (setAggregate drv aggFn).find mr.GetCollection b opts
          = Except.ok docs := h
      rw [h2]
      simp only [decodeDocs_setAggregate]

/-- Witness for C8 at a concrete repository, aggregation stage and
filter. -/
theorem find_aggregate_executed_discarded_witness :
    (testRepo.Find mongoDriver (GoSlice.mk [] 0) (GoValue.ptrBsonD [])
        (GoValue.bsonD [("stage", BsonVal.int 1)]) []).1
      = [DriverCall.aggregate testColl
          (GoValue.bsonD [("stage", BsonVal.int 1)]),
          DriverCall.find testColl [] []] :=
  (find_aggregate_executed_discarded mongoDriver (fun _ _ => Except.ok [])
    testRepo (GoSlice.mk [] 0) (GoValue.ptrBsonD [])
    (GoValue.bsonD [("stage", BsonVal.int 1)]) [] []
    (by decide) rfl).1

/-- Every driver call one repository method makes targets the
repository's own collection. -/
theorem runOp_coll {T : Type} [IMongoModel T] (drv : Driver T)
    (mr : MongoRepository T) (op : RepoOp T) :
    ∀ c ∈ runOp drv mr op, DriverCall.coll c = mr.GetCollection := by
  cases op with
  | findOne dest f o =>
    simp only [runOp, MongoRepository.FindOne]
    rcases ToBson f with e | b
    · simp
    · dsimp only
      rcases drv.findOne mr.GetCollection b [] with d | _ | e
      · dsimp only
        rcases drv.decode d with e | t <;> simp [DriverCall.coll]
      · simp [DriverCall.coll]
      · simp [DriverCall.coll]
  | find ms f a o =>
    simp only [runOp, MongoRepository.Find]
    rcases ToBson f with e | b
    · simp
    · dsimp only
      intro c hc
      rcases hf : drv.find mr.GetCollection b o with e | docs <;>
        rw [hf] at hc <;>
        rcases List.mem_append.mp hc with h1 | h1
      · by_cases hn : a = GoValue.nil
        · rw [if_pos hn] at h1
          exact absurd h1 (List.not_mem_nil c)
        · rw [if_neg hn] at h1
          rcases List.mem_singleton.mp h1 with rfl
          rfl
      · rcases List.mem_singleton.mp h1 with rfl
        rfl
      · by_cases hn : a = GoValue.nil
        · rw [if_pos hn] at h1
          exact absurd h1 (List.not_mem_nil c)
        · rw [if_neg hn] at h1
          rcases List.mem_singleton.mp h1 with rfl
          rfl
      · rcases List.mem_singleton.mp h1 with rfl
        rfl
  | insertOne m o =>
    simp only [runOp, MongoRepository.InsertOne]
    intro c hc
    rcases h : drv.insertOne mr.GetCollection m o with e | i <;>
      rw [h] at hc <;>
      rcases List.mem_singleton.mp hc with rfl <;> rfl
  | insertMany ms o =>
    simp only [runOp, MongoRepository.InsertMany]
    intro c hc
    rcases h : drv.insertMany mr.GetCollection [DriverDoc.modelSlicePtr ms] o
      with e | ids <;>
      rw [h] at hc <;>
      rcases List.mem_singleton.mp hc with rfl <;> rfl
  | replaceOne f m o =>
    simp only [runOp, MongoRepository.ReplaceOne]
    intro c hc
    rcases h : drv.replaceOne mr.GetCollection f m o with e | n <;>
      rw [h] at hc <;>
      rcases List.mem_singleton.mp hc with rfl <;> rfl
  | updateOne f u o =>
    simp only [runOp, MongoRepository.UpdateOne]
    intro c hc
    rcases h : drv.updateOne mr.GetCollection f u o with e | n <;>
      rw [h] at hc <;>
      rcases List.mem_singleton.mp hc with rfl <;> rfl
  | updateMany f u o =>
    simp only [runOp, MongoRepository.UpdateMany]
    intro c hc
    rcases h : drv.updateMany mr.GetCollection f u [] with e | n <;>
      rw [h] at hc <;>
      rcases List.mem_singleton.mp hc with rfl <;> rfl
  | deleteOne f o =>
    simp only [runOp, MongoRepository.DeleteOne]
    intro c hc
    rcases h : drv.deleteOne mr.GetCollection f o with e | n <;>
      rw [h] at hc <;>
      rcases List.mem_singleton.mp hc with rfl <;> rfl
  | deleteMany f o =>
    simp only [runOp, MongoRepository.DeleteMany]
    intro c hc
    rcases h : drv.deleteMany mr.GetCollection f o with e | n <;>
      rw [h] at hc <;>
      rcases List.mem_singleton.mp hc with rfl <;> rfl

/-- C9: the repository built by `InitRepository` holds its model and
database immutably (every method reads them and returns no updated
repository), so across any sequence of CRUD calls every driver call
resolves the same target collection: the database handle paired with the
collection name the model capability reported at construction time. -/
theorem repository_collection_fixed {T : Type} [IMongoModel T]
    (drv : Driver T) (db : Database) (m : T) (ops : List (RepoOp T))
    (c : DriverCall T)
    (hc : c ∈ runOps drv (InitRepository db m) ops) :
    DriverCall.coll c = Collection.mk db (IMongoModel.Collection m) := by
  induction ops with
  | nil => simp [runOps] at hc
  | cons op ops ih =>
    rw [runOps] at hc
    rcases List.mem_append.mp hc with h1 | h1
    · exact runOp_coll drv (InitRepository db m) op c h1
    · exact ih h1

/-- Witness for C9: a concrete call sequence on a concrete repository. -/
theorem repository_collection_fixed_witness :
    DriverCall.coll
        (DriverCall.deleteOne testColl (GoValue.ptrBsonD [])
          ([] : List Opt) : DriverCall TestModel)
      = Collection.mk testDb (IMongoModel.Collection (TestModel.mk "")) :=
  repository_collection_fixed mongoDriver testDb (TestModel.mk "")
    [RepoOp.deleteOne (GoValue.ptrBsonD []) []]
    (DriverCall.deleteOne testColl (GoValue.ptrBsonD []) []) (by decide)

end Remongo
